import Mathlib

/-!
Shallow embedding of the text-to-tree pipeline of `osbuild-ks`
(`src/main.rs`, module `kickstart`): comment stripping (`File::clean`),
recursive `%include` resolution (`File::resolve` / `File::from_path`) and the
two-state section parser (`Tree::parse`) with the duplicate-section merge
step (`Tree::merge`).

Representation choices:
* A file's text is represented by its list of lines, exactly the view the
  source code takes of it: every stage iterates `self.data.lines()` and
  rebuilds the string as a concatenation of newline-terminated, newline-free
  lines, so the line list is a faithful representation of the string at every
  stage boundary.
* The filesystem is a partial map from (joined) path strings to file
  contents; `path.exists()` corresponds to the map being defined at the path.
* Rust functions that can call `process::exit(code)` as well as return
  `Result` values are modelled with the `Outcome` type, which distinguishes a
  returned `Ok`, a returned `Err` and a process exit.  The unbounded mutual
  recursion of `File::from_path` / `File::resolve` is indexed by a fuel
  parameter bounding the include-recursion depth; `Outcome.fuelOut` marks a
  run that exceeds the bound (for every bound), i.e. a diverging execution.
-/

namespace kickstart

/-- Models Rust `str::starts_with` on `&str` patterns (character-prefix
test), used as `line.starts_with("#")`, `line.starts_with("%include")` and
`line.starts_with('%')` in the source. -/
def starts_with (s p : String) : Bool :=
  p.data.isPrefixOf s.data

/-- Accumulator loop for `split_whitespace`: gathers the current word in
reverse in `acc`, emitting it whenever a whitespace character or the end of
input is reached.  Words are never empty. -/
def wordsAux : List Char → List Char → List (List Char)
  | [], acc => if acc = [] then [] else [acc.reverse]
  | c :: cs, acc =>
    if c.isWhitespace then
      if acc = [] then wordsAux cs [] else acc.reverse :: wordsAux cs []
    else
      wordsAux cs (c :: acc)

/-- The whitespace-separated words of a character list. -/
def words (cs : List Char) : List (List Char) :=
  wordsAux cs []

/-- Models Rust `str::split_whitespace`: the whitespace-separated tokens of
a string, with no empty tokens. -/
def split_whitespace (s : String) : List String :=
  (words s.data).map (fun w => String.mk w)

/-- `KickstartError` from the source.  `IoError` models the source's
variant carrying an `io::Error`; the payload is irrelevant to the verified
properties and omitted.  Note the enum has no cycle-error variant. -/
inductive KickstartError
  | IoError
  | Parse
deriving DecidableEq

/-- Result of running a piece of the pipeline: a returned `Ok` value, a
returned `Err`, a `process::exit(code)` call, or exhaustion of the
include-recursion fuel (the run recurses deeper than the given bound). -/
inductive Outcome (α : Type)
  | ok : α → Outcome α
  | err : KickstartError → Outcome α
  | exit : Nat → Outcome α
  | fuelOut : Outcome α

/-- Sequencing of pipeline steps: Rust's `?` on `Result` plus propagation
of `process::exit` and of fuel exhaustion. -/
def Outcome.bind {α β : Type} : Outcome α → (α → Outcome β) → Outcome β
  | .ok a, f => f a
  | .err e, _ => .err e
  | .exit c, _ => .exit c
  | .fuelOut, _ => .fuelOut

@[simp] theorem Outcome.bind_ok {α β : Type} (a : α) (f : α → Outcome β) :
    (Outcome.ok a).bind f = f a := rfl

@[simp] theorem Outcome.bind_err {α β : Type} (e : KickstartError) (f : α → Outcome β) :
    (Outcome.err e).bind f = (.err e : Outcome β) := rfl

@[simp] theorem Outcome.bind_exit {α β : Type} (c : Nat) (f : α → Outcome β) :
    (Outcome.exit c).bind f = (.exit c : Outcome β) := rfl

@[simp] theorem Outcome.bind_fuelOut {α β : Type} (f : α → Outcome β) :
    (Outcome.fuelOut : Outcome α).bind f = (.fuelOut : Outcome β) := rfl

theorem Outcome.bind_eq_ok {α β : Type} {x : Outcome α} {f : α → Outcome β} {b : β} :
    x.bind f = .ok b ↔ ∃ a, x = .ok a ∧ f a = .ok b := by
  cases x <;> simp [Outcome.bind]

/-- The filesystem: maps a path string to the lines of the file stored
there, or `none` when no file exists at that path. -/
def FS : Type := String → Option (List String)

/-- `struct File`: a path and the file's data (as its list of lines). -/
structure File where
  path : String
  data : List String
deriving DecidableEq

/-- `struct Section`: section name, body data (as its list of lines) and
arguments. -/
structure Section where
  name : String
  data : List String
  args : List String
deriving DecidableEq

/-- `struct Tree`: the (resolved) file and the parsed sections. -/
structure Tree where
  file : File
  sections : List Section
deriving DecidableEq

/-- `File::clean` (src/main.rs:108-120): drop every line that starts with
`#`, keep all other lines verbatim.  (The `Result` return of the source is
always `Ok(())`; the function only rewrites `self.data`.) -/
def cleanData (data : List String) : List String :=
  data.filter (fun line => !(starts_with line "#"))

/-- `File::clean` as a `File` transformer. -/
def File.clean (f : File) : File :=
  { f with data := cleanData f.data }

/-- The loop body of `File::resolve` (src/main.rs:126-161), processing the
lines of one file.  `recur` resolves the content of an included file one
recursion level deeper: in the source this is the recursive call
`File::from_path(&path, &inc)?` at line 149, whose open step cannot fail
because `path.exists()` was just checked, and whose body is
clean-then-resolve; here that body is `recur ∘ cleanData` applied to the
stored contents.  A `%include` line with a token count other than 2 prints
`"ErroR!"` and calls `exit(1)`; a missing include target prints `"Error!"`
and calls `exit(2)`. -/
def resolveLoop (fs : FS) (inc : String)
    (recur : List String → Outcome (List String)) : List String → Outcome (List String)
  | [] => Outcome.ok []
  | line :: rest =>
    if starts_with line "%include" then
      let parts := split_whitespace line
      if parts.length ≠ 2 then
        Outcome.exit 1
      else
        match fs (inc ++ "/" ++ parts[1]!) with
        | none => Outcome.exit 2
        | some buffer =>
          (recur (cleanData buffer)).bind fun included =>
            (resolveLoop fs inc recur rest).bind fun ds =>
              Outcome.ok (included ++ ds)
    else
      (resolveLoop fs inc recur rest).bind fun ds =>
        Outcome.ok (line :: ds)

/-- `File::resolve` on file data, indexed by the include-recursion depth
bound `fuel`: at depth 0 any further inclusion is fuel exhaustion (the
source has no guard at all and would recurse without bound). -/
def resolveData (fs : FS) (inc : String) : Nat → List String → Outcome (List String)
  | 0, lines => resolveLoop fs inc (fun _ => Outcome.fuelOut) lines
  | Nat.succ n, lines => resolveLoop fs inc (resolveData fs inc n) lines

/-- `File::resolve` (src/main.rs:123-166): rewrite `self.data` to the
flattened content. -/
def File.resolve (fs : FS) (fuel : Nat) (f : File) (inc : String) : Outcome File :=
  (resolveData fs inc fuel f.data).bind fun data =>
    Outcome.ok { f with data := data }

/-- `File::from_path` (src/main.rs:90-105): open and read the file (an
`io::Error` becomes `Err(KickstartError::IO)` through `?`), then `clean`
and `resolve` it.  Path canonicalisation is omitted: paths are modelled as
already canonical. -/
def File.from_path (fs : FS) (src inc : String) (fuel : Nat) : Outcome File :=
  match fs src with
  | none => Outcome.err KickstartError.IoError
  | some buffer => (({ path := src, data := buffer } : File).clean).resolve fs fuel inc

/-- `struct Kickstart` (the `Document` of the spec): the resolved root file
and the parsed tree. -/
structure Kickstart where
  file : File
  tree : Tree
deriving DecidableEq

/-- The state threaded through the line loop of `Tree::parse`
(src/main.rs:181-249): the `in_section` flag, the running synthetic command
section, the section currently being built (the local variable `section`)
and the sections pushed so far (`self.sections`). -/
structure ParseState where
  in_section : Bool
  command_section : Section
  sec : Section
  sections : List Section
deriving DecidableEq

/-- One iteration of the line loop of `Tree::parse` (src/main.rs:197-245).
The `eprintln!`-only branches (new section while inside one, `%end` while
outside) leave the state unchanged.  `(split_whitespace line).headD ""` is
the source's `parts[0]` (the list is nonempty in that branch since the line
starts with the non-whitespace `%`), and `.drop 1` its
`parts.split_off(1)`. -/
def parseStep (st : ParseState) (line : String) : ParseState :=
  if st.in_section then
    if starts_with line "%" then
      if line = "%end" then
        { st with in_section := false, sections := st.sections ++ [st.sec] }
      else
        st
    else
      { st with sec := { st.sec with data := st.sec.data ++ [line] } }
  else
    if starts_with line "%" then
      if line = "%end" then
        st
      else
        { st with in_section := true,
                  sec := { name := (split_whitespace line).headD "",
                           data := [],
                           args := (split_whitespace line).drop 1 } }
    else
      if line ≠ "" then
        { st with command_section :=
            { st.command_section with data := st.command_section.data ++ [line] } }
      else
        st

/-- `Tree::merge` (src/main.rs:252-254): despite its documentation comment
("we merge these down to single sections"), the body returns `self`
unchanged. -/
def Tree.merge (t : Tree) : Tree :=
  t

/-- `Tree::parse` (src/main.rs:181-249): run the line loop from the initial
state (outside any section, empty command section named `"command"`), push
the command section last, and merge.  A section still open at end of input
is never pushed. -/
def Tree.parse (t : Tree) : Tree :=
  let fin := t.file.data.foldl parseStep
    { in_section := false,
      command_section := { name := "command", data := [], args := [] },
      sec := { name := "", data := [], args := [] },
      sections := t.sections }
  Tree.merge { t with sections := fin.sections ++ [fin.command_section] }

/-- `Tree::from_file` (src/main.rs:174-179); the `Result` it returns is
always `Ok`. -/
def Tree.from_file (file : File) : Tree :=
  { file := file, sections := [] }

/-- `Kickstart::from_path` (src/main.rs:69-87): load and resolve the root
file, then parse it (canonicalisation of the two paths is omitted: paths
are modelled as already canonical). -/
def Kickstart.from_path (fs : FS) (src inc : String) (fuel : Nat) : Outcome Kickstart :=
  (File.from_path fs src inc fuel).bind fun file =>
    Outcome.ok { file := file, tree := (Tree.from_file file).parse }

/-! ### Generic helper lemmas -/

theorem filter_idem {α : Type} (p : α → Bool) (l : List α) :
    (l.filter p).filter p = l.filter p := by
  induction l with
  | nil => rfl
  | cons a l ih => by_cases h : p a <;> simp [List.filter_cons, h, ih]

theorem getLast?_app {α : Type} : ∀ (l : List α) (a : α), (l ++ [a]).getLast? = some a := by
  intro l a
  induction l with
  | nil => rfl
  | cons b l ih =>
    cases l with
    | nil => rfl
    | cons c l2 => exact ih

theorem dropLast_app {α : Type} : ∀ (l : List α) (a : α), (l ++ [a]).dropLast = l := by
  intro l a
  induction l with
  | nil => rfl
  | cons b l ih =>
    cases l with
    | nil => rfl
    | cons c l2 => exact congrArg (List.cons b) ih

/-! ### Example inputs used by the concrete claims -/

/-- Filesystem holding a single root file whose only line is a `%include`
directive with no argument (a malformed include directive). -/
def fs4 : FS := fun p => if p = "f" then some ["%include"] else none

/-- Filesystem with a two-file include cycle: `./a` includes `b` and `./b`
includes `a` (with include directory `"."`). -/
def cyc : FS := fun p =>
  if p = "./a" then some ["%include b"]
  else if p = "./b" then some ["%include a"]
  else none

/-- Filesystem holding a single root file with one comment line and no
include directives. -/
def fsW : FS := fun p => if p = "f" then some ["a", "#c", "x"] else none

/-! ### The include cycle: the resolver spends any amount of fuel -/

theorem cyc_step_b (n : Nat) : resolveData cyc "." (n + 1) ["%include b"]
    = (resolveData cyc "." n ["%include a"]).bind (fun included => Outcome.ok (included ++ [])) := rfl

theorem cyc_step_a (n : Nat) : resolveData cyc "." (n + 1) ["%include a"]
    = (resolveData cyc "." n ["%include b"]).bind (fun included => Outcome.ok (included ++ [])) := rfl

theorem cyc_spin : ∀ n : Nat,
    resolveData cyc "." n ["%include a"] = Outcome.fuelOut ∧
    resolveData cyc "." n ["%include b"] = Outcome.fuelOut := by
  intro n
  induction n with
  | zero => exact ⟨rfl, rfl⟩
  | succ n ih =>
    constructor
    · rw [cyc_step_a, ih.2]
      rfl
    · rw [cyc_step_b, ih.1]
      rfl

/-! ### Claim theorems (first batch) -/

/-- C1: on a flattened input that ends while the parser is still inside a
section (no closing `%end`), the code does **not** fail with a parse error:
`Tree::parse` is total (it cannot return an error at all) and returns a
section list in which the unterminated `%post` section has been silently
dropped, leaving only the synthetic command section. -/
theorem unterminated_section_dropped :
    (Tree.parse (Tree.from_file ⟨"p", ["%post --erroronfail", "hello"]⟩)).sections
      = [{ name := "command", data := [], args := [] }] := rfl

/-- C2: on the cyclic include (`./a` includes `b`, `./b` includes `a`),
`File::from_path` never produces any result: for every bound on the
include-recursion depth the run exhausts the bound, i.e. the recursion of
`File::resolve` never terminates (in the real program, until resource
exhaustion).  In particular no `CycleError` is ever produced — the error
type `KickstartError` does not even have a cycle variant. -/
theorem cyclic_include_diverges (fuel : Nat) :
    File.from_path cyc "./a" "." fuel = Outcome.fuelOut := by
  have h := (cyc_spin fuel).2
  have e : File.from_path cyc "./a" "." fuel
      = (resolveData cyc "." fuel ["%include b"]).bind
          (fun data => Outcome.ok { path := "./a", data := data }) := rfl
  rw [e, h]
  rfl

/-- C3: parsing the flattened input
`cmd1\n%post --erroronfail\nline1\n\nline2\n%end\ncmd2\n` yields exactly two
sections: the section opened by `%post` with arguments `["--erroronfail"]`
and body lines `["line1", "", "line2"]` (the blank line inside the section
preserved), and the command section with body lines `["cmd1", "cmd2"]`. -/
theorem parse_example_sections :
    (Tree.parse (Tree.from_file
        ⟨"p", ["cmd1", "%post --erroronfail", "line1", "", "line2", "%end", "cmd2"]⟩)).sections
      = [{ name := "%post", data := ["line1", "", "line2"], args := ["--erroronfail"] },
         { name := "command", data := ["cmd1", "cmd2"], args := [] }] := rfl

/-- C4: a `%include` line without exactly one argument does **not** surface
a typed `ParseError` to the caller: both `File::from_path` and
`Kickstart::from_path` end in `process::exit(1)` (after printing
`"ErroR!"`), for every recursion bound.  The `KickstartError::Parse`
variant is never constructed anywhere in the program. -/
theorem malformed_include_exits (fuel : Nat) :
    File.from_path fs4 "f" "." fuel = Outcome.exit 1 ∧
    Kickstart.from_path fs4 "f" "." fuel = Outcome.exit 1 := by
  cases fuel <;> exact ⟨rfl, rfl⟩

/-- C5: `Tree::merge` is the identity function, so a document with two
`%packages` sections still has two sections named `"%packages"` after
parsing and merging — duplicate sections are not merged down to one. -/
theorem duplicate_packages_not_merged :
    (∀ t : Tree, Tree.merge t = t) ∧
    ((Tree.parse (Tree.from_file
        ⟨"p", ["%packages", "a", "%end", "%packages", "b", "%end"]⟩)).sections.filter
          (fun s => s.name = "%packages")).length = 2 := by
  exact ⟨fun t => rfl, rfl⟩

/-- C8: comment stripping (`File::clean`) is idempotent: cleaning a file
twice yields the same content as cleaning it once. -/
theorem clean_idempotent (f : File) : (f.clean).clean = f.clean := by
  simp [File.clean, cleanData, filter_idem]

/-! ### Completeness of include resolution (C6) -/

theorem resolveLoop_no_include (fs : FS) (inc : String)
    (recur : List String → Outcome (List String))
    (hrec : ∀ ls data, recur ls = Outcome.ok data → ∀ l ∈ data, starts_with l "%include" = false) :
    ∀ lines data, resolveLoop fs inc recur lines = Outcome.ok data →
      ∀ l ∈ data, starts_with l "%include" = false := by
  intro lines
  induction lines with
  | nil =>
    intro data h l hl
    simp only [resolveLoop] at h
    cases h
    simp at hl
  | cons line rest ih =>
    intro data h l hl
    simp only [resolveLoop] at h
    split at h
    · split at h
      · cases h
      · split at h
        · cases h
        · rw [Outcome.bind_eq_ok] at h
          obtain ⟨included, hi, h⟩ := h
          rw [Outcome.bind_eq_ok] at h
          obtain ⟨ds, hd, h⟩ := h
          cases h
          rcases List.mem_append.mp hl with hmem | hmem
          · exact hrec _ _ hi l hmem
          · exact ih ds hd l hmem
    · rename_i hinc
      rw [Bool.not_eq_true] at hinc
      rw [Outcome.bind_eq_ok] at h
      obtain ⟨ds, hd, h⟩ := h
      cases h
      rcases List.mem_cons.mp hl with hmem | hmem
      · rw [hmem]; exact hinc
      · exact ih ds hd l hmem

theorem resolveData_no_include (fs : FS) (inc : String) :
    ∀ fuel lines data, resolveData fs inc fuel lines = Outcome.ok data →
      ∀ l ∈ data, starts_with l "%include" = false := by
  intro fuel
  induction fuel with
  | zero =>
    intro lines data h
    exact resolveLoop_no_include fs inc _ (fun ls d h' => Outcome.noConfusion h') lines data h
  | succ n ih =>
    intro lines data h
    exact resolveLoop_no_include fs inc _ ih lines data h

/-- C6: whenever `File::from_path` succeeds (loading, cleaning and fully
resolving a root file against an include directory), no line of the
resulting flattened content begins with `%include` — resolution is
complete, including inside recursively included files. -/
theorem resolve_no_include_in_output (fs : FS) (src inc : String) (fuel : Nat) (f : File)
    (h : File.from_path fs src inc fuel = Outcome.ok f) :
    ∀ l ∈ f.data, starts_with l "%include" = false := by
  unfold File.from_path at h
  cases hfs : fs src with
  | none => rw [hfs] at h; cases h
  | some buffer =>
    rw [hfs] at h
    unfold File.resolve at h
    rw [Outcome.bind_eq_ok] at h
    obtain ⟨data, hd, h⟩ := h
    cases h
    exact resolveData_no_include fs inc fuel _ data hd

/-- Witness for C6 at a concrete input: resolving the one-file filesystem
`fsW` succeeds with flattened content `["a", "x"]`, and its first line does
not begin with `%include`. -/
theorem resolve_no_include_in_output_witness :
    starts_with "a" "%include" = false :=
  resolve_no_include_in_output fsW "f" "." 1 ⟨"f", ["a", "x"]⟩ rfl "a" (by decide)

/-! ### Characterisation of the section parser's output list -/

/-- The sections pushed onto `self.sections` by the remaining iterations of
the `Tree::parse` loop, given the current `in_section` flag and the section
under construction.  Follows the branch structure of `parseStep` exactly;
sections are emitted at their closing `%end`, in text order. -/
def emitted : List String → Bool → Section → List Section
  | [], _, _ => []
  | line :: rest, false, sec =>
    if starts_with line "%" then
      if line = "%end" then emitted rest false sec
      else emitted rest true { name := (split_whitespace line).headD "",
                               data := [],
                               args := (split_whitespace line).drop 1 }
    else emitted rest false sec
  | line :: rest, true, sec =>
    if starts_with line "%" then
      if line = "%end" then sec :: emitted rest false sec
      else emitted rest true sec
    else emitted rest true { sec with data := sec.data ++ [line] }

/-- Spec-side definition for the ordering invariant of §3: the names of the
sections the flattened text delimits (an opening marker line later closed by
`%end`), listed in the order their opening markers are encountered, per the
spec's two-state description of the parser (openers are recognised only
outside a section; the name is the opener's first whitespace-separated
token).  Since sections cannot nest, emission order at `%end` equals
opening order. -/
def openerNames : List String → Bool → String → List String
  | [], _, _ => []
  | line :: rest, false, cur =>
    if starts_with line "%" then
      if line = "%end" then openerNames rest false cur
      else openerNames rest true ((split_whitespace line).headD "")
    else openerNames rest false cur
  | line :: rest, true, cur =>
    if starts_with line "%" then
      if line = "%end" then cur :: openerNames rest false cur
      else openerNames rest true cur
    else openerNames rest true cur

/-- The initial state of the `Tree::parse` loop (for a tree built by
`Tree::from_file`, whose section list is empty). -/
def pinit : ParseState :=
  { in_section := false,
    command_section := { name := "command", data := [], args := [] },
    sec := { name := "", data := [], args := [] },
    sections := [] }

theorem foldl_sections : ∀ (lines : List String) (st : ParseState),
    (List.foldl parseStep st lines).sections
      = st.sections ++ emitted lines st.in_section st.sec := by
  intro lines
  induction lines with
  | nil => intro st; simp [emitted]
  | cons line rest ih =>
    intro st
    rw [List.foldl_cons, ih]
    cases hb : st.in_section <;>
      simp only [parseStep, emitted, hb] <;>
      split_ifs <;>
      simp_all [List.append_assoc]

theorem parseStep_command (st : ParseState) (line : String) :
    (parseStep st line).command_section.name = st.command_section.name ∧
    (parseStep st line).command_section.args = st.command_section.args := by
  unfold parseStep
  split_ifs <;> simp

theorem foldl_command : ∀ (lines : List String) (st : ParseState),
    (List.foldl parseStep st lines).command_section.name = st.command_section.name ∧
    (List.foldl parseStep st lines).command_section.args = st.command_section.args := by
  intro lines
  induction lines with
  | nil => intro st; exact ⟨rfl, rfl⟩
  | cons line rest ih =>
    intro st
    rw [List.foldl_cons]
    exact ⟨(ih (parseStep st line)).1.trans (parseStep_command st line).1,
           (ih (parseStep st line)).2.trans (parseStep_command st line).2⟩

/-! ### First tokens of marker lines -/

theorem wordsAux_acc : ∀ (cs acc : List Char), acc ≠ [] →
    ∃ t ws, wordsAux cs acc = (acc.reverse ++ t) :: ws := by
  intro cs
  induction cs with
  | nil =>
    intro acc h
    exact ⟨[], [], by simp [wordsAux, h]⟩
  | cons c cs ih =>
    intro acc h
    by_cases hw : c.isWhitespace
    · exact ⟨[], wordsAux cs [], by simp [wordsAux, hw, h]⟩
    · obtain ⟨t, ws, ht⟩ := ih (c :: acc) (by simp)
      exact ⟨c :: t, ws, by simp [wordsAux, hw, ht]⟩

theorem first_token_marker (line : String) (h : starts_with line "%" = true) :
    starts_with ((split_whitespace line).headD "") "%" = true := by
  unfold starts_with at h ⊢
  cases hd : line.data with
  | nil => rw [hd] at h; cases h
  | cons c cs =>
    rw [hd] at h
    have hc : c = '%' := by
      have hq : ("%".data : List Char) = ['%'] := rfl
      rw [hq] at h
      simp [List.isPrefixOf] at h
      exact h.symm
    subst hc
    obtain ⟨t, ws, ht⟩ := wordsAux_acc cs ['%'] (by simp)
    have hstep : wordsAux ('%' :: cs) [] = wordsAux cs ['%'] := rfl
    simp only [split_whitespace, words, hd, hstep, ht]
    simp [List.isPrefixOf]

theorem marker_ne_command {n : String} (h : starts_with n "%" = true) : n ≠ "command" := by
  intro he
  rw [he] at h
  exact absurd h (by decide)

theorem emitted_name_marker : ∀ (lines : List String) (b : Bool) (sec : Section),
    (b = true → starts_with sec.name "%" = true) →
    ∀ s ∈ emitted lines b sec, starts_with s.name "%" = true := by
  intro lines
  induction lines with
  | nil =>
    intro b sec hb s hs
    simp [emitted] at hs
  | cons line rest ih =>
    intro b sec hb s hs
    cases b
    · simp only [emitted] at hs
      split at hs
      · split at hs
        · exact ih false sec hb s hs
        · rename_i hp he
          exact ih true _ (fun _ => first_token_marker line hp) s hs
      · exact ih false sec hb s hs
    · simp only [emitted] at hs
      split at hs
      · split at hs
        · rcases List.mem_cons.mp hs with hmem | hmem
          · rw [hmem]; exact hb rfl
          · exact ih false sec (fun hf => nomatch hf) s hmem
        · exact ih true sec hb s hs
      · exact ih true { sec with data := sec.data ++ [line] } (fun _ => hb rfl) s hs

theorem emitted_map_name : ∀ (lines : List String) (b : Bool) (sec : Section),
    (emitted lines b sec).map Section.name = openerNames lines b sec.name := by
  intro lines
  induction lines with
  | nil => intro b sec; rfl
  | cons line rest ih =>
    intro b sec
    cases b <;>
      simp only [emitted, openerNames] <;>
      split_ifs <;>
      simp [ih]

/-! ### Claim theorems about the parser's invariants -/

/-- C7: for every input file, the parsed output contains exactly one
section named `"command"`, the synthetic command section: it has an empty
argument list, it is placed last in the section list, no other section is
named `"command"`, and the other sections appear in the order their opening
markers were encountered in the flattened text (`openerNames`). -/
theorem parse_command_section_invariants (file : File) :
    ((Tree.from_file file).parse.sections.getLast?.map Section.name = some "command") ∧
    ((Tree.from_file file).parse.sections.getLast?.map Section.args = some []) ∧
    (∀ sec ∈ (Tree.from_file file).parse.sections.dropLast, sec.name ≠ "command") ∧
    ((Tree.from_file file).parse.sections.dropLast.map Section.name
      = openerNames file.data false "") := by
  have e : (Tree.from_file file).parse.sections
      = (List.foldl parseStep pinit file.data).sections
        ++ [(List.foldl parseStep pinit file.data).command_section] := rfl
  have hsec : (List.foldl parseStep pinit file.data).sections
      = emitted file.data false { name := "", data := [], args := [] } := by
    rw [foldl_sections]
    rfl
  have hcmd := foldl_command file.data pinit
  refine ⟨?_, ?_, ?_, ?_⟩
  · rw [e, getLast?_app]
    exact congrArg some hcmd.1
  · rw [e, getLast?_app]
    exact congrArg some hcmd.2
  · intro sec hmem
    rw [e, dropLast_app, hsec] at hmem
    exact marker_ne_command
      (emitted_name_marker file.data false _ (fun hf => nomatch hf) sec hmem)
  · rw [e, dropLast_app, hsec, emitted_map_name]

/-- Witness for C7 at a concrete input: in the parse of
`%a x\nb\n%end\n`, the single non-command section (named `"%a"`) is not
named `"command"`. -/
theorem parse_command_section_invariants_witness :
    ({ name := "%a", data := ["b"], args := ["x"] } : Section).name ≠ "command" :=
  (parse_command_section_invariants ⟨"p", ["%a x", "b", "%end"]⟩).2.2.1
    { name := "%a", data := ["b"], args := ["x"] } (by decide)

/-- C9: the stored name of a section is the entire first
whitespace-separated token of its opening line, leading `%` marker
included: in general, the section built by `parseStep` from an opening line
carries `(split_whitespace line).headD ""` (the source's `parts[0]`) as its
name and the remaining tokens as arguments; concretely, the line
`%post --erroronfail` produces a section named `"%post"`, not `"post"`. -/
theorem section_name_keeps_marker :
    (∀ (st : ParseState) (line : String), st.in_section = false →
        starts_with line "%" = true → line ≠ "%end" →
        ((parseStep st line).sec.name = (split_whitespace line).headD "" ∧
         (parseStep st line).sec.args = (split_whitespace line).drop 1)) ∧
    ((Tree.parse (Tree.from_file ⟨"p", ["%post --erroronfail", "x", "%end"]⟩)).sections.map
        Section.name = ["%post", "command"]) ∧
    ("%post" : String) ≠ "post" := by
  refine ⟨?_, rfl, by decide⟩
  intro st line hb hp he
  simp [parseStep, hb, hp, he]

/-- Witness for C9 at a concrete input: from the initial parser state, the
opening line `%post --erroronfail` stores its entire first token as the
section name. -/
theorem section_name_keeps_marker_witness :
    (parseStep pinit "%post --erroronfail").sec.name
      = (split_whitespace "%post --erroronfail").headD "" :=
  (section_name_keeps_marker.1 pinit "%post --erroronfail" rfl (by decide) (by decide)).1

/-! ### No marker lines in section bodies (C10) -/

/-- A section none of whose body lines starts with `%`. -/
def GoodSec (sec : Section) : Prop :=
  ∀ l ∈ sec.data, starts_with l "%" = false

/-- Parser-state invariant: every accumulated body (pushed sections, the
section under construction, the command section) contains no `%`-line. -/
def InvState (st : ParseState) : Prop :=
  (∀ sec ∈ st.sections, GoodSec sec) ∧ GoodSec st.sec ∧ GoodSec st.command_section

theorem parseStep_inv (st : ParseState) (line : String) (h : InvState st) :
    InvState (parseStep st line) := by
  obtain ⟨hs, hcur, hcmd⟩ := h
  unfold parseStep
  split_ifs with h1 h2 h3 h4
  · refine ⟨?_, hcur, hcmd⟩
    intro sec hmem
    rcases List.mem_append.mp hmem with hm | hm
    · exact hs sec hm
    · rw [List.mem_singleton.mp hm]; exact hcur
  · exact ⟨hs, hcur, hcmd⟩
  · refine ⟨hs, ?_, hcmd⟩
    intro l hl
    rcases List.mem_append.mp hl with hm | hm
    · exact hcur l hm
    · rw [List.mem_singleton.mp hm, ← Bool.not_eq_true]; exact h2
  · exact ⟨hs, hcur, hcmd⟩
  · refine ⟨hs, ?_, hcmd⟩
    intro l hl
    simp at hl
  · refine ⟨hs, hcur, ?_⟩
    intro l hl
    rcases List.mem_append.mp hl with hm | hm
    · exact hcmd l hm
    · rw [List.mem_singleton.mp hm, ← Bool.not_eq_true]; exact h4
  · exact ⟨hs, hcur, hcmd⟩

theorem foldl_inv : ∀ (lines : List String) (st : ParseState),
    InvState st → InvState (List.foldl parseStep st lines) := by
  intro lines
  induction lines with
  | nil => intro st h; exact h
  | cons line rest ih =>
    intro st h
    rw [List.foldl_cons]
    exact ih _ (parseStep_inv st line h)

/-- C10: for every input file and every section of its parse — the command
section included — no line of the section's body starts with `%`: marker
lines (`%end`, and section openers in either parser state) are never
appended to any body. -/
theorem parse_no_marker_in_body (file : File) :
    ∀ sec ∈ (Tree.from_file file).parse.sections, ∀ l ∈ sec.data,
      starts_with l "%" = false := by
  intro sec hmem l hl
  have e : (Tree.from_file file).parse.sections
      = (List.foldl parseStep pinit file.data).sections
        ++ [(List.foldl parseStep pinit file.data).command_section] := rfl
  rw [e] at hmem
  have hinit : InvState pinit := by
    refine ⟨?_, ?_, ?_⟩ <;> intro x hx <;> simp [pinit] at hx
  have hinv := foldl_inv file.data pinit hinit
  rcases List.mem_append.mp hmem with hm | hm
  · exact hinv.1 sec hm l hl
  · rw [List.mem_singleton.mp hm] at hl
    exact hinv.2.2 l hl

/-- Witness for C10 at a concrete input: in the parse of
`%post\nx\n%end\n`, the body line `x` of the `%post` section does not start
with `%`. -/
theorem parse_no_marker_in_body_witness :
    starts_with "x" "%" = false :=
  parse_no_marker_in_body ⟨"p", ["%post", "x", "%end"]⟩
    ⟨"%post", ["x"], []⟩ (by decide) "x" (by decide)

end kickstart

